import Mathlib

/-!
Verification of the workspace-manager detection core
(`src/workspace/manager.rs` and `src/workspace/root.rs`).

Paths are modelled as normalized component lists (Unix-style: an optional
leading root component followed by plain components), with the operations the
code uses: `file_name`, `join`, `pop`/`parent`.  The filesystem is modelled as
a function from paths to an answer (present / absent / I/O error), so that the
semantics of `Path::exists` — which returns `false` on any error — can be
stated faithfully.
-/

deriving instance DecidableEq for Except

/-- A single path component, mirroring `std::path::Component` (Unix):
root directory, `.`, `..`, or a normal name. -/
inductive Component where
  | rootDir
  | curDir
  | parentDir
  | normal (s : String)
deriving DecidableEq, Repr

/-- A filesystem path in normalized component form. -/
structure FsPath where
  components : List Component
deriving DecidableEq, Repr

/-- Rust `Path::parent` / the truncating part of `PathBuf::pop`: `none` when the
path is empty or consists only of the root, otherwise the path without its
last component. -/
def FsPath.pop (p : FsPath) : Option FsPath :=
  if p.components = [] ∨ p.components = [Component.rootDir] then none
  else some ⟨p.components.dropLast⟩

/-- Rust `PathBuf::pop` as used by the code: truncate to the parent when one
exists, otherwise leave the path unchanged (the `bool` result is ignored
at the call sites in `Root::new` / `Root::with_manager`). -/
def FsPath.popOrSelf (p : FsPath) : FsPath :=
  match p.pop with
  | some q => q
  | none => p

/-- Rust `Path::join`: an absolute right operand replaces the whole path,
otherwise the components are appended. -/
def FsPath.join (p : FsPath) (file : FsPath) : FsPath :=
  match file.components with
  | Component.rootDir :: _ => file
  | _ => ⟨p.components ++ file.components⟩

/-- Rust `Path::file_name`: the final component when it is a normal name,
`none` otherwise (root, `.`, `..`, or the empty path). -/
def FsPath.fileName (p : FsPath) : Option String :=
  match p.components.getLast? with
  | some (Component.normal s) => some s
  | _ => none

/-- The chain of ancestors visited by the upward walk, starting at `p`
itself; fuel-indexed helper (the fuel `p.components.length` always
suffices, since `pop` removes exactly one component). -/
def ancestorsAux : Nat → FsPath → List FsPath
  | 0, p => [p]
  | fuel + 1, p =>
    p :: (match p.pop with
          | some q => ancestorsAux fuel q
          | none => [])

/-- Rust `Path::ancestors`: the path itself followed by its successive parents. -/
def FsPath.ancestors (p : FsPath) : List FsPath :=
  ancestorsAux p.components.length p

/-- The kind of an `std::io::Error`, as far as the claims need it. -/
inductive IoErrorKind where
  | notFound
  | permissionDenied
  | other
deriving DecidableEq, Repr

/-- What the filesystem answers when the existence of a path is tested:
the path is present, absent, or the check itself fails with an I/O error
(permission denied, etc.). -/
inductive FsAnswer where
  | present
  | absent
  | ioFailure (k : IoErrorKind)
deriving DecidableEq, Repr

/-- A filesystem state: one answer per path. -/
def Fs : Type := FsPath → FsAnswer

/-- Rust `Path::exists` (i.e. `fs::metadata(p).is_ok()`): `true` exactly when
the path is present; an I/O failure during the check yields `false`, the
error is not surfaced. -/
def pathExists (fs : Fs) (p : FsPath) : Bool :=
  match fs p with
  | FsAnswer.present => true
  | _ => false

/-- The five workspace-manager kinds (`enum Manager`). -/
inductive Manager where
  | yarn
  | pnpm
  | rush
  | npm
  | lerna
deriving DecidableEq, Repr

/-- The fixed precedence order used by the auto-detect search
(`SEARCH_ORDER` in `manager.rs`): Lerna > Rush > Yarn > Pnpm > Npm. -/
def SEARCH_ORDER : List Manager :=
  [Manager.lerna, Manager.rush, Manager.yarn, Manager.pnpm, Manager.npm]

/-- Rust `ParseManagerError`: carries the offending input string verbatim. -/
structure ParseManagerError where
  input : String
deriving DecidableEq, Repr

/-- Rust `InvalidFileError`: carries the offending path. -/
structure InvalidFileError where
  path : FsPath
deriving DecidableEq, Repr

/-- The lowercase textual identifier of each manager. -/
def Manager.identifier : Manager → String
  | Manager.yarn => "yarn"
  | Manager.pnpm => "pnpm"
  | Manager.rush => "rush"
  | Manager.npm => "npm"
  | Manager.lerna => "lerna"

/-- Rust `str::to_lowercase`, modelled as per-character ASCII case folding
(`A`–`Z` map to `a`–`z`, everything else is unchanged), which agrees with
the Rust function on every input whose lowercasing can equal one of the five
manager identifiers. -/
def lowercase (s : String) : String :=
  ⟨s.data.map Char.toLower⟩

/-- Rust `Manager::from_str`: lowercase the input and match it against the five
identifiers; on failure return a `ParseManagerError` carrying the original
(non-lowercased) input. -/
def Manager.fromStr (input : String) : Except ParseManagerError Manager :=
  if lowercase input = "yarn" then Except.ok Manager.yarn
  else if lowercase input = "pnpm" then Except.ok Manager.pnpm
  else if lowercase input = "rush" then Except.ok Manager.rush
  else if lowercase input = "npm" then Except.ok Manager.npm
  else if lowercase input = "lerna" then Except.ok Manager.lerna
  else Except.error ⟨input⟩

/-- Rust `Manager::from_env`: the value of the `PREFERRED_WORKSPACE_MANAGER`
environment variable is passed in as `env` (`none` when the variable is
unset).  An absent variable is no error; a present value is parsed and a
parse failure propagates. -/
def Manager.fromEnv (env : Option String) : Except ParseManagerError (Option Manager) :=
  match env with
  | some var => (Manager.fromStr var).map some
  | none => Except.ok none

/-- Modelled from the spec: `Root::new` calls `Manager::preferred()`, whose
definition is not among the provided sources.  The "Preferred-manager
override" (§4.1) — read the single override variable, return "no preference"
when absent, otherwise delegate to Parse-from-text and propagate a parse
failure — is exactly `Manager::from_env`, so `preferred` is modelled as it. -/
def Manager.preferred (env : Option String) : Except ParseManagerError (Option Manager) :=
  Manager.fromEnv env

/-- The marker filename of each manager (`impl AsRef<Path> for Manager`). -/
def Manager.markerFilename : Manager → String
  | Manager.yarn => "yarn.lock"
  | Manager.pnpm => "pnpm-workspace.yaml"
  | Manager.rush => "rush.json"
  | Manager.npm => "package-lock.json"
  | Manager.lerna => "lerna.json"

/-- Rust `Manager::as_ref`: the marker filename as a (relative, one-component)
path. -/
def Manager.asRef (m : Manager) : FsPath :=
  ⟨[Component.normal m.markerFilename]⟩

/-- Rust `TryFrom<&Path> for Manager`: extract the final file-name component and
match it exactly against the five marker filenames; otherwise fail with an
`InvalidFileError` carrying the full path. -/
def Manager.tryFrom (path : FsPath) : Except InvalidFileError Manager :=
  match path.fileName with
  | some s =>
    if s = "yarn.lock" then Except.ok Manager.yarn
    else if s = "pnpm-workspace.yaml" then Except.ok Manager.pnpm
    else if s = "rush.json" then Except.ok Manager.rush
    else if s = "package-lock.json" then Except.ok Manager.npm
    else if s = "lerna.json" then Except.ok Manager.lerna
    else Except.error ⟨path⟩
  | none => Except.error ⟨path⟩

/-- Render a component for error messages. -/
def Component.render : Component → String
  | Component.rootDir => "/"
  | Component.curDir => "."
  | Component.parentDir => ".."
  | Component.normal s => s

/-- Render a path for error messages. -/
def FsPath.render (p : FsPath) : String :=
  match p.components with
  | Component.rootDir :: rest =>
    "/" ++ String.intercalate "/" (rest.map Component.render)
  | comps => String.intercalate "/" (comps.map Component.render)

/-- The display message of `ParseManagerError` ("Invalid manager: {0}"). -/
def ParseManagerError.message (e : ParseManagerError) : String :=
  "Invalid manager: " ++ e.input

/-- The display message of `InvalidFileError` ("Invalid manager file: {0}"). -/
def InvalidFileError.message (e : InvalidFileError) : String :=
  "Invalid manager file: " ++ e.path.render

/-- Rust `RootError`: an I/O error or a manager error carrying a message
(`From<ParseManagerError>` and `From<InvalidFileError>` both map into the
`Manager` variant via the display string of the error). -/
inductive RootError where
  | ioErr (e : IoErrorKind)
  | manager (message : String)
deriving DecidableEq, Repr

/-- The resolved workspace root: the manager and the directory containing
its marker file. -/
structure Root where
  manager : Manager
  path : FsPath
deriving DecidableEq, Repr

/-- The loop body of `search_up`, fuel-indexed (the fuel
`cwd.components.length + 1` always suffices, since each `pop` removes
exactly one component and the walk stops when `pop` fails): at the current
directory test each candidate in order and return the first that exists;
otherwise ascend, failing with `NotFound` at the filesystem root. -/
def searchUpAux (fs : Fs) (files : List FsPath) : Nat → FsPath → Except IoErrorKind FsPath
  | 0, _ => Except.error IoErrorKind.notFound
  | fuel + 1, cwd =>
    match files.find? (fun f => pathExists fs (cwd.join f)) with
    | some f => Except.ok (cwd.join f)
    | none =>
      match cwd.pop with
      | some parent => searchUpAux fs files fuel parent
      | none => Except.error IoErrorKind.notFound

/-- Rust `search_up` in `root.rs`: walk upward from `cwd`, testing the candidate
files in the given order at each level. -/
def searchUp (fs : Fs) (files : List FsPath) (cwd : FsPath) : Except IoErrorKind FsPath :=
  searchUpAux fs files (cwd.components.length + 1) cwd

/-- Rust `Root::with_manager`: search upward for exactly the marker file of the given manager and truncate the winner to its parent directory. -/
def Root.withManager (fs : Fs) (cwd : FsPath) (manager : Manager) : Except IoErrorKind Root :=
  match searchUp fs [manager.asRef] cwd with
  | Except.ok path => Except.ok ⟨manager, path.popOrSelf⟩
  | Except.error e => Except.error e

/-- Rust `Root::new`: honor a well-formed override via `with_manager`, propagate
an override parse failure, otherwise auto-detect by searching upward for all
five markers in `SEARCH_ORDER`, recover the manager from the winning path,
and truncate to its parent. -/
def Root.new (fs : Fs) (env : Option String) (cwd : FsPath) : Except RootError Root :=
  match Manager.preferred env with
  | Except.error e => Except.error (RootError.manager e.message)
  | Except.ok (some manager) =>
    match Root.withManager fs cwd manager with
    | Except.ok r => Except.ok r
    | Except.error e => Except.error (RootError.ioErr e)
  | Except.ok none =>
    match searchUp fs (SEARCH_ORDER.map Manager.asRef) cwd with
    | Except.error e => Except.error (RootError.ioErr e)
    | Except.ok path =>
      match Manager.tryFrom path with
      | Except.error e => Except.error (RootError.manager e.message)
      | Except.ok manager => Except.ok ⟨manager, path.popOrSelf⟩

/-! ## Helper lemmas -/

theorem FsPath.pop_append_normal (l : List Component) (s : String) :
    FsPath.pop ⟨l ++ [Component.normal s]⟩ = some ⟨l⟩ := by
  have h1 : l ++ [Component.normal s] ≠ [] := by simp
  have h2 : l ++ [Component.normal s] ≠ [Component.rootDir] := by
    intro h
    rcases l with _ | ⟨x, xs⟩
    · simp at h
    · simp [List.cons_append] at h
  simp [FsPath.pop, h1, h2]

theorem FsPath.join_append (d : FsPath) (s : String) :
    d.join ⟨[Component.normal s]⟩ = ⟨d.components ++ [Component.normal s]⟩ := rfl

theorem FsPath.fileName_append_normal (l : List Component) (s : String) :
    FsPath.fileName ⟨l ++ [Component.normal s]⟩ = some s := by
  simp [FsPath.fileName, List.getLast?_concat]

theorem FsPath.pop_length {p q : FsPath} (h : p.pop = some q) :
    q.components.length + 1 = p.components.length := by
  by_cases hc : p.components = [] ∨ p.components = [Component.rootDir]
  · simp [FsPath.pop, hc] at h
  · simp [FsPath.pop, hc] at h
    have hne : p.components ≠ [] := fun hnil => hc (Or.inl hnil)
    have hlen : 0 < p.components.length := List.length_pos.mpr hne
    rw [← h]
    simp [List.length_dropLast]
    omega

theorem Manager.tryFrom_join_asRef (m : Manager) (d : FsPath) :
    Manager.tryFrom (d.join m.asRef) = Except.ok m := by
  cases m <;>
    simp [Manager.asRef, Manager.markerFilename, FsPath.join_append, Manager.tryFrom,
      FsPath.fileName_append_normal]

theorem FsPath.popOrSelf_join_asRef (d : FsPath) (m : Manager) :
    (d.join m.asRef).popOrSelf = d := by
  cases m <;>
    simp [Manager.asRef, Manager.markerFilename, FsPath.join_append, FsPath.popOrSelf,
      FsPath.pop_append_normal]

theorem searchUp_eq (fs : Fs) (files : List FsPath) (cwd : FsPath) :
    searchUp fs files cwd =
      match files.find? (fun f => pathExists fs (cwd.join f)) with
      | some f => Except.ok (cwd.join f)
      | none =>
        match cwd.pop with
        | some parent => searchUp fs files parent
        | none => Except.error IoErrorKind.notFound := by
  unfold searchUp
  conv_lhs => rw [searchUpAux]
  cases hfind : files.find? (fun f => pathExists fs (cwd.join f)) with
  | some f => simp [hfind]
  | none =>
    simp only [hfind]
    cases hpop : cwd.pop with
    | some parent =>
      simp only [hpop]
      rw [← FsPath.pop_length hpop]
    | none => simp [hpop]

theorem searchUp_found {fs : Fs} {files : List FsPath} {cwd f : FsPath}
    (h : files.find? (fun f => pathExists fs (cwd.join f)) = some f) :
    searchUp fs files cwd = Except.ok (cwd.join f) := by
  rw [searchUp_eq, h]

theorem searchUp_ascend {fs : Fs} {files : List FsPath} {cwd parent : FsPath}
    (hnone : files.find? (fun f => pathExists fs (cwd.join f)) = none)
    (hpop : cwd.pop = some parent) :
    searchUp fs files cwd = searchUp fs files parent := by
  rw [searchUp_eq, hnone, hpop]

theorem searchUpAux_error {fs : Fs} {files : List FsPath} :
    ∀ {fuel : Nat} {cwd : FsPath} {e : IoErrorKind},
      searchUpAux fs files fuel cwd = Except.error e → e = IoErrorKind.notFound := by
  intro fuel
  induction fuel with
  | zero =>
    intro cwd e h
    simp [searchUpAux] at h
    exact h.symm
  | succ n ih =>
    intro cwd e h
    rw [searchUpAux] at h
    cases hfind : files.find? (fun f => pathExists fs (cwd.join f)) with
    | some f => rw [hfind] at h; simp at h
    | none =>
      rw [hfind] at h
      cases hpop : cwd.pop with
      | some parent => rw [hpop] at h; exact ih h
      | none =>
        rw [hpop] at h
        simp at h
        exact h.symm

theorem searchUp_error {fs : Fs} {files : List FsPath} {cwd : FsPath} {e : IoErrorKind}
    (h : searchUp fs files cwd = Except.error e) : e = IoErrorKind.notFound :=
  searchUpAux_error h

theorem searchUpAux_ok {fs : Fs} {files : List FsPath} :
    ∀ {fuel : Nat} {cwd p : FsPath},
      searchUpAux fs files fuel cwd = Except.ok p →
      ∃ (d f : FsPath), f ∈ files ∧ p = d.join f ∧ pathExists fs p = true := by
  intro fuel
  induction fuel with
  | zero =>
    intro cwd p h
    simp [searchUpAux] at h
  | succ n ih =>
    intro cwd p h
    rw [searchUpAux] at h
    cases hfind : files.find? (fun f => pathExists fs (cwd.join f)) with
    | some f =>
      rw [hfind] at h
      simp at h
      refine ⟨cwd, f, List.mem_of_find?_eq_some hfind, h.symm, ?_⟩
      have hps := List.find?_some hfind
      rw [h] at hps
      simpa using hps
    | none =>
      rw [hfind] at h
      cases hpop : cwd.pop with
      | some parent =>
        rw [hpop] at h
        exact ih (show searchUpAux fs files n parent = Except.ok p from h)
      | none =>
        rw [hpop] at h
        simp at h

theorem ancestors_eq (p : FsPath) :
    p.ancestors = p :: (match p.pop with | some q => q.ancestors | none => []) := by
  unfold FsPath.ancestors
  cases hn : p.components.length with
  | zero =>
    have hnil : p.components = [] := List.length_eq_zero.mp hn
    have hpop : p.pop = none := by simp [FsPath.pop, hnil]
    simp [ancestorsAux, hpop, hnil]
  | succ n =>
    rw [show ancestorsAux (n + 1) p = p :: (match p.pop with
          | some q => ancestorsAux n q
          | none => []) from rfl]
    cases hpop : p.pop with
    | some q =>
      have hl := FsPath.pop_length hpop
      have hq : q.components.length = n := by omega
      simp [hpop, hq]
    | none => simp [hpop]

theorem searchUpAux_notFound {fs : Fs} {files : List FsPath} :
    ∀ {fuel : Nat} {cwd : FsPath},
      (∀ a ∈ cwd.ancestors, ∀ f ∈ files, pathExists fs (a.join f) = false) →
      searchUpAux fs files fuel cwd = Except.error IoErrorKind.notFound := by
  intro fuel
  induction fuel with
  | zero => intro cwd _; rfl
  | succ n ih =>
    intro cwd h
    rw [searchUpAux]
    have hself : cwd ∈ cwd.ancestors := by
      rw [ancestors_eq]
      exact List.mem_cons_self _ _
    have hfind : files.find? (fun f => pathExists fs (cwd.join f)) = none := by
      rw [List.find?_eq_none]
      intro f hf
      simp [h cwd hself f hf]
    rw [hfind]
    cases hpop : cwd.pop with
    | some parent =>
      show searchUpAux fs files n parent = Except.error IoErrorKind.notFound
      apply ih
      intro a ha f hf
      apply h a _ f hf
      rw [ancestors_eq, hpop]
      exact List.mem_cons_of_mem _ ha
    | none => rfl

theorem searchUp_notFound {fs : Fs} {files : List FsPath} {cwd : FsPath}
    (h : ∀ a ∈ cwd.ancestors, ∀ f ∈ files, pathExists fs (a.join f) = false) :
    searchUp fs files cwd = Except.error IoErrorKind.notFound :=
  searchUpAux_notFound h

theorem FsPath.pop_join_asRef (d : FsPath) (m : Manager) :
    (d.join m.asRef).pop = some d := by
  rw [Manager.asRef, FsPath.join_append]
  exact FsPath.pop_append_normal _ _

theorem Root.new_pref_error {fs : Fs} {env : Option String} {cwd : FsPath}
    {e : ParseManagerError} (hpref : Manager.preferred env = Except.error e) :
    Root.new fs env cwd = Except.error (RootError.manager e.message) := by
  unfold Root.new
  rw [hpref]

theorem Root.new_pref_some {fs : Fs} {env : Option String} {cwd : FsPath} {m : Manager}
    (hpref : Manager.preferred env = Except.ok (some m)) :
    Root.new fs env cwd =
      match Root.withManager fs cwd m with
      | Except.ok r => Except.ok r
      | Except.error e => Except.error (RootError.ioErr e) := by
  unfold Root.new
  rw [hpref]

theorem Root.new_pref_none {fs : Fs} {env : Option String} {cwd : FsPath}
    (hpref : Manager.preferred env = Except.ok none) :
    Root.new fs env cwd =
      match searchUp fs (SEARCH_ORDER.map Manager.asRef) cwd with
      | Except.error e => Except.error (RootError.ioErr e)
      | Except.ok path =>
        match Manager.tryFrom path with
        | Except.error e => Except.error (RootError.manager e.message)
        | Except.ok manager => Except.ok ⟨manager, path.popOrSelf⟩ := by
  unfold Root.new
  rw [hpref]

/-! ## Concrete fixtures used by witnesses -/

/-- A concrete filesystem: paths in `present` exist, everything else is
absent. -/
def fsWith (present : List FsPath) : Fs := fun p =>
  if p ∈ present then FsAnswer.present else FsAnswer.absent

/-- The directory `/a`. -/
def dirA : FsPath := ⟨[Component.rootDir, Component.normal "a"]⟩

/-- The directory `/a/b`. -/
def dirAB : FsPath := ⟨[Component.rootDir, Component.normal "a", Component.normal "b"]⟩

/-- The directory `/a/b/c`. -/
def dirABC : FsPath :=
  ⟨[Component.rootDir, Component.normal "a", Component.normal "b", Component.normal "c"]⟩

/-! ## Claims -/

/-- C3: for each of the five identifiers in any letter-casing (any string
whose lowercasing is the identifier), `Manager::from_str` returns the
corresponding manager; for every other string it fails with a
`ParseManagerError` carrying the original, non-lowercased input. -/
theorem parse_from_text_correct :
    (∀ (m : Manager) (s : String),
      lowercase s = m.identifier → Manager.fromStr s = Except.ok m) ∧
    (∀ s : String,
      (∀ m : Manager, lowercase s ≠ m.identifier) →
      Manager.fromStr s = Except.error ⟨s⟩) := by
  constructor
  · intro m s h
    cases m <;> (unfold Manager.fromStr; rw [h]; rfl)
  · intro s h
    have hy : lowercase s ≠ "yarn" := h Manager.yarn
    have hp : lowercase s ≠ "pnpm" := h Manager.pnpm
    have hr : lowercase s ≠ "rush" := h Manager.rush
    have hn : lowercase s ≠ "npm" := h Manager.npm
    have hl : lowercase s ≠ "lerna" := h Manager.lerna
    unfold Manager.fromStr
    rw [if_neg hy, if_neg hp, if_neg hr, if_neg hn, if_neg hl]

/-- Witness for C3: `"YARN"` parses to Yarn, `"lolwut"` fails carrying
`"lolwut"`. -/
theorem parse_from_text_correct_witness :
    Manager.fromStr "YARN" = Except.ok Manager.yarn ∧
    Manager.fromStr "lolwut" = Except.error ⟨"lolwut"⟩ :=
  ⟨parse_from_text_correct.1 Manager.yarn "YARN" (by decide),
   parse_from_text_correct.2 "lolwut" (by intro m; cases m <;> decide)⟩

/-- C4: marker-filename lookup is total and returns the fixed filename of
each manager, and parsing back a path formed by joining any directory prefix
with the marker filename of a manager recovers that manager (round-trip). -/
theorem marker_filename_roundtrip :
    (Manager.markerFilename Manager.yarn = "yarn.lock" ∧
     Manager.markerFilename Manager.pnpm = "pnpm-workspace.yaml" ∧
     Manager.markerFilename Manager.rush = "rush.json" ∧
     Manager.markerFilename Manager.npm = "package-lock.json" ∧
     Manager.markerFilename Manager.lerna = "lerna.json") ∧
    ∀ (m : Manager) (dir : FsPath), Manager.tryFrom (dir.join m.asRef) = Except.ok m :=
  ⟨⟨rfl, rfl, rfl, rfl, rfl⟩, fun m dir => Manager.tryFrom_join_asRef m dir⟩

/-- C10: a path with no extractable final file-name component (the root
path, a path ending in `..`, the empty path) makes `TryFrom<&Path>` fail
with an `InvalidFileError` carrying that path — the same error kind as for
a mismatching final component. -/
theorem parse_from_path_no_component_error (p : FsPath) (h : p.fileName = none) :
    Manager.tryFrom p = Except.error ⟨p⟩ := by
  unfold Manager.tryFrom
  rw [h]

/-- Witness for C10: the root path `/`, the path `..` and the empty path
all fail with an `InvalidFileError` carrying the path itself. -/
theorem parse_from_path_no_component_error_witness :
    Manager.tryFrom ⟨[Component.rootDir]⟩ = Except.error ⟨⟨[Component.rootDir]⟩⟩ ∧
    Manager.tryFrom ⟨[Component.parentDir]⟩ = Except.error ⟨⟨[Component.parentDir]⟩⟩ ∧
    Manager.tryFrom ⟨[]⟩ = Except.error ⟨⟨[]⟩⟩ :=
  ⟨parse_from_path_no_component_error _ rfl,
   parse_from_path_no_component_error _ rfl,
   parse_from_path_no_component_error _ rfl⟩

/-- C1: with no override, resolving from a directory where at least one
marker exists (in particular where markers of more than one manager exist)
returns the manager that comes first in the fixed precedence order
`SEARCH_ORDER` (Lerna > Rush > Yarn > Pnpm > Npm) among those whose marker
is present, with `path` equal to that directory. -/
theorem resolve_same_level_precedence (fs : Fs) (d : FsPath) (m : Manager)
    (hfind : SEARCH_ORDER.find? (fun m => pathExists fs (d.join m.asRef)) = some m) :
    Root.new fs none d = Except.ok ⟨m, d⟩ := by
  have hmap : (SEARCH_ORDER.map Manager.asRef).find? (fun f => pathExists fs (d.join f))
      = some m.asRef := by
    rw [List.find?_map]
    try simp only [Function.comp_def]
    rw [hfind]
    rfl
  have hs := searchUp_found hmap
  simp only [Root.new, Manager.preferred, Manager.fromEnv, hs, Manager.tryFrom_join_asRef,
    FsPath.popOrSelf_join_asRef]

/-- Witness for C1: `/a` contains both `lerna.json` and `yarn.lock`;
resolving from `/a` yields Lerna with path `/a`. -/
theorem resolve_same_level_precedence_witness :
    Root.new
      (fsWith [dirA.join (Manager.asRef Manager.lerna), dirA.join (Manager.asRef Manager.yarn)])
      none dirA
      = Except.ok ⟨Manager.lerna, dirA⟩ :=
  resolve_same_level_precedence _ _ _ (by decide)

/-- C6: if the override is set to a string that does not parse as a manager
identifier, resolution fails immediately with the parse error, for every
filesystem state and starting directory — it never falls back to
auto-detection, even when valid markers exist in ancestors. -/
theorem override_parse_error_immediate (fs : Fs) (cwd : FsPath) (s : String)
    (h : Manager.fromStr s = Except.error ⟨s⟩) :
    Root.new fs (some s) cwd = Except.error (RootError.manager ("Invalid manager: " ++ s)) := by
  simp only [Root.new, Manager.preferred, Manager.fromEnv, h, Except.map,
    ParseManagerError.message]

/-- Witness for C6: with the override set to `"lolwut"` and a valid
`lerna.json` marker in the starting directory, resolution still fails with
the parse error. -/
theorem override_parse_error_immediate_witness :
    Root.new (fsWith [dirA.join (Manager.asRef Manager.lerna)]) (some "lolwut") dirA
      = Except.error (RootError.manager ("Invalid manager: " ++ "lolwut")) :=
  override_parse_error_immediate _ _ _ (by decide)

/-- C9: when the override parses to manager `m`, `Root::new` returns exactly
what `Root::with_manager` returns on the same directory and filesystem
state: the same `Root` on success, and the same error (injected into
`RootError`) otherwise. -/
theorem resolve_override_equiv_with_manager (fs : Fs) (cwd : FsPath) (s : String) (m : Manager)
    (h : Manager.fromStr s = Except.ok m) :
    (∀ r : Root, Root.withManager fs cwd m = Except.ok r →
      Root.new fs (some s) cwd = Except.ok r) ∧
    (∀ e : IoErrorKind, Root.withManager fs cwd m = Except.error e →
      Root.new fs (some s) cwd = Except.error (RootError.ioErr e)) := by
  constructor
  · intro r hr
    simp only [Root.new, Manager.preferred, Manager.fromEnv, h, Except.map, hr]
  · intro e he
    simp only [Root.new, Manager.preferred, Manager.fromEnv, h, Except.map, he]

/-- Witness for C9: with the override `"PNPM"` and a `pnpm-workspace.yaml`
in `/a`, `Root::new` succeeds exactly as `with_manager` does; with the
override `"pnpm"` and an empty filesystem, both fail with not-found. -/
theorem resolve_override_equiv_with_manager_witness :
    Root.new (fsWith [dirA.join (Manager.asRef Manager.pnpm)]) (some "PNPM") dirA
      = Except.ok ⟨Manager.pnpm, dirA⟩ ∧
    Root.new (fsWith []) (some "pnpm") dirA
      = Except.error (RootError.ioErr IoErrorKind.notFound) :=
  ⟨(resolve_override_equiv_with_manager _ _ "PNPM" Manager.pnpm (by decide)).1 _ (by decide),
   (resolve_override_equiv_with_manager _ _ "pnpm" Manager.pnpm (by decide)).2 _ (by decide)⟩

/-- C2: a marker in an ancestor closer to the starting directory wins over
any marker further up regardless of precedence: for every filesystem where
`/a` contains `lerna.json`, `/a/b` contains `yarn.lock` (and no
higher-precedence marker), and `/a/b/c` contains no marker, resolving from
`/a/b/c` yields Yarn with path `/a/b`. -/
theorem resolve_closer_ancestor_wins (fs : Fs)
    (_hA : pathExists fs (dirA.join (Manager.asRef Manager.lerna)) = true)
    (hAByarn : pathExists fs (dirAB.join (Manager.asRef Manager.yarn)) = true)
    (hABlerna : pathExists fs (dirAB.join (Manager.asRef Manager.lerna)) = false)
    (hABrush : pathExists fs (dirAB.join (Manager.asRef Manager.rush)) = false)
    (hABC : ∀ m : Manager, pathExists fs (dirABC.join m.asRef) = false) :
    Root.new fs none dirABC = Except.ok ⟨Manager.yarn, dirAB⟩ := by
  have hfindABC : (SEARCH_ORDER.map Manager.asRef).find?
      (fun f => pathExists fs (dirABC.join f)) = none := by
    rw [List.find?_eq_none]
    intro f hf
    obtain ⟨m, -, rfl⟩ := List.mem_map.mp hf
    simp [hABC m]
  have hfindAB : (SEARCH_ORDER.map Manager.asRef).find?
      (fun f => pathExists fs (dirAB.join f)) = some (Manager.asRef Manager.yarn) := by
    simp only [SEARCH_ORDER, List.map_cons, List.map_nil]
    rw [List.find?_cons_of_neg _ (by simp [hABlerna]),
      List.find?_cons_of_neg _ (by simp [hABrush]),
      List.find?_cons_of_pos _ (by simp [hAByarn])]
  have hsearch : searchUp fs (SEARCH_ORDER.map Manager.asRef) dirABC
      = Except.ok (dirAB.join (Manager.asRef Manager.yarn)) :=
    calc searchUp fs (SEARCH_ORDER.map Manager.asRef) dirABC
        = searchUp fs (SEARCH_ORDER.map Manager.asRef) dirAB :=
          searchUp_ascend hfindABC (by decide)
      _ = Except.ok (dirAB.join (Manager.asRef Manager.yarn)) := searchUp_found hfindAB
  simp only [Root.new, Manager.preferred, Manager.fromEnv, hsearch,
    Manager.tryFrom_join_asRef, FsPath.popOrSelf_join_asRef]

/-- Witness for C2: a concrete filesystem with exactly `lerna.json` in `/a`
and `yarn.lock` in `/a/b`, resolved from `/a/b/c`. -/
theorem resolve_closer_ancestor_wins_witness :
    Root.new
      (fsWith [dirA.join (Manager.asRef Manager.lerna), dirAB.join (Manager.asRef Manager.yarn)])
      none dirABC
      = Except.ok ⟨Manager.yarn, dirAB⟩ :=
  resolve_closer_ancestor_wins _ (by decide) (by decide) (by decide) (by decide)
    (by intro m; cases m <;> decide)

/-- C7: when no ancestor of the starting directory (up to the filesystem
root) contains any candidate marker, resolution fails with not-found: in
the all-five-markers auto-detect search, with the override set to
`"pnpm"`, and in the single-marker search for any explicitly given
manager. -/
theorem resolve_no_marker_not_found (fs : Fs) (cwd : FsPath)
    (h : ∀ a ∈ cwd.ancestors, ∀ m : Manager, pathExists fs (a.join m.asRef) = false) :
    Root.new fs none cwd = Except.error (RootError.ioErr IoErrorKind.notFound) ∧
    Root.new fs (some "pnpm") cwd = Except.error (RootError.ioErr IoErrorKind.notFound) ∧
    ∀ m : Manager, Root.withManager fs cwd m = Except.error IoErrorKind.notFound := by
  have hw : ∀ m : Manager, Root.withManager fs cwd m = Except.error IoErrorKind.notFound := by
    intro m
    have hs : searchUp fs [m.asRef] cwd = Except.error IoErrorKind.notFound := by
      apply searchUp_notFound
      intro a ha f hf
      simp only [List.mem_singleton] at hf
      subst hf
      exact h a ha m
    simp only [Root.withManager, hs]
  have hall : searchUp fs (SEARCH_ORDER.map Manager.asRef) cwd
      = Except.error IoErrorKind.notFound := by
    apply searchUp_notFound
    intro a ha f hf
    obtain ⟨m, -, rfl⟩ := List.mem_map.mp hf
    exact h a ha m
  refine ⟨?_, ?_, hw⟩
  · simp only [Root.new, Manager.preferred, Manager.fromEnv, hall]
  · have hpnpm : Manager.preferred (some "pnpm") = Except.ok (some Manager.pnpm) := by decide
    simp only [Root.new, hpnpm, hw Manager.pnpm]

/-- Witness for C7: on the empty filesystem, resolving from `/a/b/c` fails
with not-found both without an override and with the override `"pnpm"`. -/
theorem resolve_no_marker_not_found_witness :
    Root.new (fsWith []) none dirABC = Except.error (RootError.ioErr IoErrorKind.notFound) ∧
    Root.new (fsWith []) (some "pnpm") dirABC
      = Except.error (RootError.ioErr IoErrorKind.notFound) :=
  ⟨(resolve_no_marker_not_found (fsWith []) dirABC
      (by intro a ha m; simp [fsWith, pathExists])).1,
   (resolve_no_marker_not_found (fsWith []) dirABC
      (by intro a ha m; simp [fsWith, pathExists])).2.1⟩

/-- C8: every successfully resolved `Root { manager, path }` satisfies the
invariant that the marker file named by the marker filename of the manager
exists at `path.join(marker filename)` at the moment of resolution, and
`path` is the parent directory of the winning marker file, not the marker
file path itself. -/
theorem resolved_root_marker_exists (fs : Fs) (env : Option String) (cwd : FsPath) (r : Root)
    (h : Root.new fs env cwd = Except.ok r) :
    pathExists fs (r.path.join r.manager.asRef) = true ∧
    (r.path.join r.manager.asRef).pop = some r.path := by
  obtain ⟨rm, rp⟩ := r
  cases hpref : Manager.preferred env with
  | error e =>
    rw [Root.new_pref_error hpref] at h
    simp at h
  | ok o =>
    cases o with
    | some m =>
      rw [Root.new_pref_some hpref] at h
      unfold Root.withManager at h
      cases hs : searchUp fs [m.asRef] cwd with
      | error e =>
        rw [hs] at h
        simp at h
      | ok p =>
        rw [hs] at h
        obtain ⟨d, f, hf, hp, hex⟩ := searchUpAux_ok hs
        simp only [List.mem_singleton] at hf
        subst hf
        subst hp
        simp only [FsPath.popOrSelf_join_asRef] at h
        simp at h
        obtain ⟨h1, h2⟩ := h
        subst h1
        subst h2
        exact ⟨hex, FsPath.pop_join_asRef d m⟩
    | none =>
      rw [Root.new_pref_none hpref] at h
      cases hs : searchUp fs (SEARCH_ORDER.map Manager.asRef) cwd with
      | error e =>
        rw [hs] at h
        simp at h
      | ok p =>
        rw [hs] at h
        obtain ⟨d, f, hf, hp, hex⟩ := searchUpAux_ok hs
        obtain ⟨m0, -, rfl⟩ := List.mem_map.mp hf
        subst hp
        simp only [Manager.tryFrom_join_asRef, FsPath.popOrSelf_join_asRef] at h
        simp at h
        obtain ⟨h1, h2⟩ := h
        subst h1
        subst h2
        exact ⟨hex, FsPath.pop_join_asRef d m0⟩

/-- Witness for C8: resolving `/a` on a filesystem with `yarn.lock` in `/a`
yields a root whose marker file exists at `path.join(yarn.lock)` and whose
`path` is the parent of that marker file. -/
theorem resolved_root_marker_exists_witness :
    pathExists (fsWith [dirA.join (Manager.asRef Manager.yarn)])
      (dirA.join (Manager.asRef Manager.yarn)) = true ∧
    (dirA.join (Manager.asRef Manager.yarn)).pop = some dirA :=
  resolved_root_marker_exists (fsWith [dirA.join (Manager.asRef Manager.yarn)]) none dirA
    ⟨Manager.yarn, dirA⟩ (by decide)

/-- Counterexample for C5: on a filesystem whose every existence check
fails with permission-denied, resolving from `/a` does not propagate the
permission-denied error — the checks are treated as "absent" and the walk
ends in not-found.  This refutes the claim that non-not-found I/O failures
surfaced while testing path existence are propagated untouched. -/
theorem io_failure_swallowed_counterexample :
    Root.new (fun _ => FsAnswer.ioFailure IoErrorKind.permissionDenied) none dirA
      = Except.error (RootError.ioErr IoErrorKind.notFound) ∧
    Root.new (fun _ => FsAnswer.ioFailure IoErrorKind.permissionDenied) none dirA
      ≠ Except.error (RootError.ioErr IoErrorKind.permissionDenied) :=
  ⟨by decide, by decide⟩

/-- C5 (amended): an I/O failure during an existence check is swallowed by
the check itself (`Path::exists` reports `false`, treating the candidate as
absent), and consequently the only I/O error ever surfaced to the caller of
`Root::new` is not-found. -/
theorem io_failure_never_propagated :
    (∀ (fs : Fs) (p : FsPath) (k : IoErrorKind),
      fs p = FsAnswer.ioFailure k → pathExists fs p = false) ∧
    (∀ (fs : Fs) (env : Option String) (cwd : FsPath) (e : IoErrorKind),
      Root.new fs env cwd = Except.error (RootError.ioErr e) → e = IoErrorKind.notFound) := by
  constructor
  · intro fs p k hk
    simp [pathExists, hk]
  · intro fs env cwd e h
    cases hpref : Manager.preferred env with
    | error pe =>
      rw [Root.new_pref_error hpref] at h
      simp at h
    | ok o =>
      cases o with
      | some m =>
        rw [Root.new_pref_some hpref] at h
        unfold Root.withManager at h
        cases hs : searchUp fs [m.asRef] cwd with
        | ok p =>
          rw [hs] at h
          simp at h
        | error e2 =>
          rw [hs] at h
          simp at h
          subst h
          exact searchUp_error hs
      | none =>
        rw [Root.new_pref_none hpref] at h
        cases hs : searchUp fs (SEARCH_ORDER.map Manager.asRef) cwd with
        | error e2 =>
          rw [hs] at h
          simp at h
          subst h
          exact searchUp_error hs
        | ok p =>
          rw [hs] at h
          simp at h
          cases ht : Manager.tryFrom p with
          | error fe =>
            rw [ht] at h
            simp at h
          | ok mg =>
            rw [ht] at h
            simp at h

/-- Witness for C5 (amended): a permission-denied answer makes the
existence check report `false`, and the auto-detect walk on that filesystem
surfaces not-found. -/
theorem io_failure_never_propagated_witness :
    pathExists (fun _ => FsAnswer.ioFailure IoErrorKind.permissionDenied) dirA = false ∧
    IoErrorKind.notFound = IoErrorKind.notFound :=
  ⟨io_failure_never_propagated.1 _ dirA IoErrorKind.permissionDenied rfl,
   io_failure_never_propagated.2 (fun _ => FsAnswer.ioFailure IoErrorKind.permissionDenied)
     none dirA IoErrorKind.notFound (by decide)⟩
